import Mathlib

/-!
# logtrace: a logrus hook attaching a stack trace to log entries with errors

A shallow embedding of `logtrace.go` and a verification of its specification.

Modelling conventions.

* A Go `string` is a Lean `String`.  Go indexes strings by byte; the three
  separators the code looks for (`/`, `.` and the centre dot) are searched
  for here by character.  On a valid UTF-8 symbol name both searches cut the
  name at the same places.
* A Go `[]uintptr` is `Option (List Nat)`: `none` is the nil slice, `some []`
  an empty slice that is not nil.  The code tests `stack != nil`, so the two
  are kept apart.  Addresses are natural numbers below `2 ^ 64`.
* A Go `interface{}` stored in a record is a `Value`; `map[string]interface{}`
  is a function `String → Option Value`.
* The collaborators of the package are taken as they are documented:
  `runtime.FuncForPC` / `(*Func).FileLine` / `(*Func).Name` and the stack
  capture of `merry.WrapSkipping` are fields of `Runtime`; what
  `merry.Stack` returns for an error, and whether an error has a method
  `Callers() []uintptr`, are fields of the error value.
* `Fire` mutates the entry and returns an error: it is a function to a pair
  of the returned error (by its message, `none` for `nil`) and the entry
  afterwards.
-/

namespace Logtrace

/-! ## Data model -/

/-- Go `[]uintptr`: `none` is the nil slice. -/
abbrev PCs := Option (List Nat)

/-- A StackFrame represents one frame in a stacktrace. -/
structure StackFrame where
  File : String
  Line : Int
  Function : String
  Package : String
deriving DecidableEq, Repr

/-- The zero value `StackFrame{}`. -/
def StackFrame.zero : StackFrame :=
  { File := "", Line := 0, Function := "", Package := "" }

/-- What the hook can observe of one error value: its message, the result of
`merry.Stack` on it, and the result of its `Callers()` method when its
dynamic type has one (`none`: no such method). -/
structure ErrorInfo where
  Error : String
  merryStack : PCs
  Callers : Option PCs
deriving DecidableEq, Repr

/-- A Go `error` value (not nil) together with its unwrap chain. -/
inductive GoError where
  | leaf (info : ErrorInfo)
  | wrap (info : ErrorInfo) (cause : GoError)
deriving DecidableEq, Repr

/-- The observable attributes of the error itself. -/
def GoError.info : GoError → ErrorInfo
  | .leaf i => i
  | .wrap i _ => i

/-- A value of type `interface{}` as stored in `logrus.Fields`. -/
inductive Value where
  | nil
  | error (err : GoError)
  | string (s : String)
  | int (n : Int)
  | frames (stack : List StackFrame)
deriving DecidableEq, Repr

/-- The type `logrus.Fields`, `map[string]interface{}`. -/
abbrev Fields := String → Option Value

/-- The part of `logrus.Entry` the hook can reach. -/
structure Entry where
  Data : Fields
  Level : Nat
  Message : String

/-- LogtraceHook is a logrus hook that attaches a stacktrace to log entries
with errors. -/
structure LogtraceHook where
  Key : String
  LogLevels : List Nat
  CaptureStackIfMissing : Bool
deriving DecidableEq, Repr

/-- A `*runtime.Func`: its `Name()` and its `FileLine(pc)`. -/
structure Func where
  Name : String
  FileLine : Nat → String × Int

/-- The process-wide services the hook reads: the symbol table behind
`runtime.FuncForPC`, and the trace `merry.Stack(merry.WrapSkipping(err, 6))`
yields at the current call site. -/
structure Runtime where
  FuncForPC : Nat → Option Func
  captureStack : GoError → PCs

/-- The constant `logrus.ErrorKey`. -/
def ErrorKey : String := "error"

/-- The value `logrus.AllLevels` (Panic, Fatal, Error, Warn, Info, Debug, Trace). -/
def AllLevels : List Nat := [0, 1, 2, 3, 4, 5, 6]

/-! ## Library functions used by the code -/

/-- Number of values of a `uintptr` (64-bit platform). -/
def uintptrSize : Nat := 2 ^ 64

/-- The expression `programCounter - 1` on `uintptr`: it wraps around at 0. -/
def pcMinusOne (programCounter : Nat) : Nat :=
  (programCounter + (uintptrSize - 1)) % uintptrSize

/-- Search of the first occurrence of `substr`, `i` being the index of the
head of the list in the whole string. -/
def indexAux (substr : List Char) : List Char → Nat → Int
  | [], i => if substr = [] then (i : Int) else -1
  | c :: cs, i =>
    if substr.isPrefixOf (c :: cs) then (i : Int) else indexAux substr cs (i + 1)

/-- Go `strings.Index(s, substr)`: index of the first instance of `substr`
in `s`, or -1. -/
def stringsIndex (s substr : String) : Int :=
  indexAux substr.data s.data 0

/-- Search of the last occurrence of `substr`, `i` being the index of the
head of the list in the whole string. -/
def lastIndexAux (substr : List Char) : List Char → Nat → Int
  | [], i => if substr = [] then (i : Int) else -1
  | c :: cs, i =>
    let later := lastIndexAux substr cs (i + 1)
    if later ≥ 0 then later
    else if substr.isPrefixOf (c :: cs) then (i : Int) else -1

/-- Go `strings.LastIndex(s, substr)`: index of the last instance of
`substr` in `s`, or -1. -/
def stringsLastIndex (s substr : String) : Int :=
  lastIndexAux substr.data s.data 0

/-- Replacement of every non-overlapping instance of a non-empty `old`;
`skip` counts the characters of a matched instance still to be dropped. -/
def replaceAux (old new : List Char) : Nat → List Char → List Char
  | _, [] => []
  | skip + 1, _ :: cs => replaceAux old new skip cs
  | 0, c :: cs =>
    if old.isPrefixOf (c :: cs) then new ++ replaceAux old new (old.length - 1) cs
    else c :: replaceAux old new 0 cs

/-- Go `strings.Replace(s, old, new, -1)`: all non-overlapping instances of
`old` replaced by `new`; an empty `old` matches at the beginning of the
string and after each character. -/
def stringsReplaceAll (s old new : String) : String :=
  if old.data = [] then ⟨new.data ++ s.data.flatMap (fun c => c :: new.data)⟩
  else ⟨replaceAux old.data new.data 0 s.data⟩

/-- The slice expression `s[:hi]`. -/
def sliceTo (s : String) (hi : Int) : String := ⟨s.data.take hi.toNat⟩

/-- The slice expression `s[lo:]`. -/
def sliceFrom (s : String) (lo : Int) : String := ⟨s.data.drop lo.toNat⟩

/-- The type assertion `err_raw.(error)`: it succeeds exactly on a value whose
dynamic type implements `error`; on the nil interface value it fails. -/
def asError : Value → Option GoError
  | .error err => some err
  | _ => none

/-- The call `merry.Stack(err)`. -/
def merryStack (err : GoError) : PCs := err.info.merryStack

/-- The call `errors.As(err, &errorWithCallers)` followed by
`errorWithCallers.Callers()`: the first error of the unwrap chain whose type
has the method `Callers() []uintptr` is stored in the target; the result is
`none` when `errors.As` returns false, and otherwise what `Callers()` returns
on the stored error. -/
def errorsAsCallers : GoError → Option PCs
  | .leaf i => i.Callers
  | .wrap i cause =>
    match i.Callers with
    | some pcs => some pcs
    | none => errorsAsCallers cause

/-- The data of `entry.WithField(key, value)` of logrus: a new map holding
every field of the entry, then `key` set to `value` (the value is no
function, so logrus stores it). -/
def WithField (entry : Entry) (key : String) (value : Value) : Entry :=
  { Data := fun k => if k = key then some value else entry.Data k,
    Level := 0,
    Message := "" }

/-! ## The package -/

/-- DefaultLogtraceHook returns the default LogtraceHook. -/
def DefaultLogtraceHook : LogtraceHook :=
  { Key := "stacktrace", LogLevels := AllLevels, CaptureStackIfMissing := true }

/-- The method `Levels`. -/
def LogtraceHook.Levels (hook : LogtraceHook) : List Nat := hook.LogLevels

/-- The two assignments guarded by `lastslash >= 0`, on the pair `(pkg, name)`. -/
def splitAtLastSlash (pkg name : String) : String × String :=
  let lastslash := stringsLastIndex name "/"
  if lastslash ≥ 0 then (pkg ++ (sliceTo name lastslash ++ "/"), sliceFrom name (lastslash + 1))
  else (pkg, name)

/-- The two assignments guarded by `period >= 0`, on the pair `(pkg, name)`. -/
def splitAtPeriod (pkg name : String) : String × String :=
  let period := stringsIndex name "."
  if period ≥ 0 then (pkg ++ sliceTo name period, sliceFrom name (period + 1))
  else (pkg, name)

/-- newStackFrame returns the StackFrame for the given programCounter.
Returns empty StackFrame if no function can be associated with the
programCounter. -/
def newStackFrame (rt : Runtime) (programCounter : Nat) : StackFrame :=
  match rt.FuncForPC programCounter with
  | none => StackFrame.zero
  | some f =>
    let fileLine := f.FileLine (pcMinusOne programCounter)
    let name := f.Name
    let pkg := ""
    let afterSlash := splitAtLastSlash pkg name
    let afterPeriod := splitAtPeriod afterSlash.1 afterSlash.2
    let name := stringsReplaceAll afterPeriod.2 "·" "."
    { File := fileLine.1, Line := fileLine.2, Function := name, Package := afterPeriod.1 }

/-- The method `retrieveProgramCounters`. -/
def retrieveProgramCounters (rt : Runtime) (hook : LogtraceHook) (err : GoError) : PCs :=
  match merryStack err with
  | some stack => some stack
  | none =>
    match errorsAsCallers err with
    | some callers => callers
    | none =>
      if hook.CaptureStackIfMissing then rt.captureStack err
      else none

/-- The loop `for idx, pc := range pcs { result[idx] = newStackFrame(pc) }`,
entered at index `idx` with the addresses still to visit. -/
def fillFrames (rt : Runtime) : List Nat → Nat → List StackFrame → List StackFrame
  | [], _, result => result
  | pc :: rest, idx, result => fillFrames rt rest (idx + 1) (result.set idx (newStackFrame rt pc))

/-- The method `retrieveStackFrames`. -/
def retrieveStackFrames (rt : Runtime) (hook : LogtraceHook) (err : GoError) :
    List StackFrame :=
  match retrieveProgramCounters rt hook err with
  | none => []
  | some pcs =>
    if pcs.length = 0 then []
    else fillFrames rt pcs 0 (List.replicate pcs.length StackFrame.zero)

/-- Message of the error returned for a hook without key. -/
def keyErrorMessage : String :=
  "The key of the hook must be set to a non empty string."

/-- Message of the error returned for an error field that holds no error. -/
def typeErrorMessage : String :=
  "The value in the error field of the given logrus entry is not an error!"

/-- Fire is called by logrus when the hook is supposed to run.  The result is
the message of the returned error (`none` for `nil`) and the entry as the
call leaves it. -/
def Fire (rt : Runtime) (hook : LogtraceHook) (entry : Entry) : Option String × Entry :=
  if hook.Key = "" then (some keyErrorMessage, entry)
  else
    match entry.Data ErrorKey with
    | some err_raw =>
      match asError err_raw with
      | none => (some typeErrorMessage, entry)
      | some err =>
        let stack := retrieveStackFrames rt hook err
        if stack.length > 0 then
          (none, { entry with Data := (WithField entry hook.Key (.frames stack)).Data })
        else (none, entry)
    | none => (none, entry)

/-! ## The split of a symbol name, in the words of the specification -/

/-- The spec's `d`: the part of `n` up to and including its last '/', empty
if `n` has no '/'. -/
def specDir (n : String) : String :=
  ⟨(n.data.reverse.dropWhile (fun c => c != '/')).reverse⟩

/-- The spec's `r`: the remainder of `n` after `d`. -/
def specRest (n : String) : String :=
  ⟨(n.data.reverse.takeWhile (fun c => c != '/')).reverse⟩

/-- The spec's replacement: every '·' becomes '.'. -/
def specCenterDots (s : String) : String :=
  ⟨s.data.map (fun c => if c = '·' then '.' else c)⟩

/-- The spec's Package of the symbol name `n`. -/
def specPackage (n : String) : String :=
  if '.' ∈ (specRest n).data then
    specDir n ++ ⟨(specRest n).data.takeWhile (fun c => c != '.')⟩
  else specDir n

/-- The spec's Function of the symbol name `n`. -/
def specFunction (n : String) : String :=
  if '.' ∈ (specRest n).data then
    specCenterDots ⟨((specRest n).data.dropWhile (fun c => c != '.')).drop 1⟩
  else specCenterDots (specRest n)

/-! ## Concrete inputs

The hooks, errors and entries of the test suite of the package. -/

/-- The function owning the sample address 4096. -/
def sampleFunc : Func :=
  { Name := "runtime/debug.*T·ptrmethod",
    FileLine := fun pc => ("/usr/lib/go/src/runtime/debug/stack.go", (pc : Int) - 4000) }

/-- The function owning the sample address 8192. -/
def mainFunc : Func :=
  { Name := "main.main", FileLine := fun pc => ("/app/main.go", (pc : Int) - 8000) }

/-- A process whose symbol table knows the addresses 4096 and 8192 only, and
in which a fresh capture yields the single address 8192. -/
def sampleRuntime : Runtime :=
  { FuncForPC := fun pc =>
      if pc = 4096 then some sampleFunc else if pc = 8192 then some mainFunc else none,
    captureStack := fun _ => some [8192] }

/-- The hook `testHook(capture)` of the tests. -/
def testHook (capture : Bool) : LogtraceHook :=
  { Key := "test_stacktrace", LogLevels := AllLevels, CaptureStackIfMissing := capture }

/-- The hook `brokenTestHook()` of the tests. -/
def brokenTestHook : LogtraceHook :=
  { Key := "", LogLevels := AllLevels, CaptureStackIfMissing := false }

/-- A hook whose key is the reserved error field itself. -/
def errorKeyHook : LogtraceHook :=
  { Key := "error", LogLevels := AllLevels, CaptureStackIfMissing := false }

/-- The error `errors.New("Testerror")`: no merry stack, no `Callers()`. -/
def plainError : GoError :=
  .leaf { Error := "Testerror", merryStack := none, Callers := none }

/-- An error like `merry.New("Testerror")`: it carries a merry stack. -/
def merryError : GoError :=
  .leaf { Error := "Testerror", merryStack := some [4096, 8192], Callers := none }

/-- An error like `goerr.New("Testerror")`: it has `Callers()`; the address 5
in the middle belongs to no function. -/
def goErrorsError : GoError :=
  .leaf { Error := "Testerror", merryStack := none, Callers := some (some [4096, 5, 8192]) }

/-- A plain wrapper around `goErrorsError`, as `fmt.Errorf("...: %w", err)` gives. -/
def wrappedGoErrorsError : GoError :=
  .wrap { Error := "context: Testerror", merryStack := none, Callers := none } goErrorsError

/-- An error with an empty merry stack that is not nil, as the wrapper
`merry.WithStack([]uintptr{})` gives, around `goErrorsError`. -/
def shadowedError : GoError :=
  .wrap { Error := "Testerror", merryStack := some [], Callers := none } goErrorsError

/-- The entry `logger.WithField(logrus.ErrorKey, v)` at level Info, with one
more field `"request"`. -/
def entryWithError (v : Value) : Entry :=
  { Data := fun k =>
      if k = "error" then some v else if k = "request" then some (.int 7) else none,
    Level := 4,
    Message := "" }

/-- An entry without error field. -/
def entryWithoutError : Entry :=
  { Data := fun k => if k = "request" then some (.int 7) else none,
    Level := 4,
    Message := "" }

/-- The errors of the unwrap chain, the error itself first. -/
def unwrapChain : GoError → List ErrorInfo
  | .leaf i => [i]
  | .wrap i cause => i :: unwrapChain cause

/-! ## Auxiliary lemmas -/

theorem errorsAsCallers_eq_none_iff (err : GoError) :
    errorsAsCallers err = none ↔ ∀ i ∈ unwrapChain err, i.Callers = none := by
  induction err with
  | leaf i => simp [errorsAsCallers, unwrapChain]
  | wrap i cause ih =>
    cases hc : i.Callers with
    | none => simp [errorsAsCallers, unwrapChain, hc, ih]
    | some pcs => simp [errorsAsCallers, unwrapChain, hc]

theorem errorsAsCallers_first (err : GoError) (pre post : List ErrorInfo) (i : ErrorInfo)
    (callers : PCs) (hchain : unwrapChain err = pre ++ i :: post)
    (hpre : ∀ j ∈ pre, j.Callers = none) (hi : i.Callers = some callers) :
    errorsAsCallers err = some callers := by
  induction err generalizing pre with
  | leaf j =>
    cases pre with
    | nil =>
      simp only [unwrapChain, List.nil_append, List.cons.injEq] at hchain
      simp [errorsAsCallers, hchain.1, hi]
    | cons p ps =>
      simp only [unwrapChain, List.cons_append, List.cons.injEq] at hchain
      have := hchain.2
      simp at this
  | wrap j cause ih =>
    cases pre with
    | nil =>
      simp only [unwrapChain, List.nil_append, List.cons.injEq] at hchain
      simp [errorsAsCallers, hchain.1, hi]
    | cons p ps =>
      simp only [unwrapChain, List.cons_append, List.cons.injEq] at hchain
      have hp : j.Callers = none := by
        rw [hchain.1]; exact hpre p (List.mem_cons_self _ _)
      simp only [errorsAsCallers, hp]
      exact ih ps hchain.2 (fun k hk => hpre k (List.mem_cons_of_mem _ hk))

theorem fillFrames_append (rt : Runtime) (pcs : List Nat) :
    ∀ (done rest : List StackFrame), rest.length = pcs.length →
      fillFrames rt pcs done.length (done ++ rest) = done ++ pcs.map (newStackFrame rt) := by
  induction pcs with
  | nil =>
    intro done rest h
    have : rest = [] := List.length_eq_zero.mp (by simpa using h)
    simp [fillFrames, this]
  | cons pc tl ih =>
    intro done rest h
    cases rest with
    | nil => simp at h
    | cons r rs =>
      have hlen : rs.length = tl.length := by simpa using h
      have hset : (done ++ r :: rs).set done.length (newStackFrame rt pc)
          = (done ++ [newStackFrame rt pc]) ++ rs := by
        simp [List.set_append]
      have hidx : done.length + 1 = (done ++ [newStackFrame rt pc]).length := by simp
      simp only [fillFrames, hset]
      rw [hidx, ih _ _ hlen]
      simp

theorem fillFrames_replicate (rt : Runtime) (pcs : List Nat) :
    fillFrames rt pcs 0 (List.replicate pcs.length StackFrame.zero)
      = pcs.map (newStackFrame rt) := by
  have h := fillFrames_append rt pcs [] (List.replicate pcs.length StackFrame.zero) (by simp)
  simpa using h

theorem retrieveStackFrames_of_some (rt : Runtime) (hook : LogtraceHook) (err : GoError)
    (pcs : List Nat) (h : retrieveProgramCounters rt hook err = some pcs) :
    retrieveStackFrames rt hook err = pcs.map (newStackFrame rt) := by
  unfold retrieveStackFrames
  rw [h]
  cases pcs with
  | nil => simp
  | cons pc tl =>
    simp only [List.length_cons, Nat.add_one_ne_zero, if_false]
    exact fillFrames_replicate rt (pc :: tl)

theorem retrieveStackFrames_of_none (rt : Runtime) (hook : LogtraceHook) (err : GoError)
    (h : retrieveProgramCounters rt hook err = none) :
    retrieveStackFrames rt hook err = [] := by
  unfold retrieveStackFrames
  rw [h]

theorem asError_eq_none_iff (v : Value) :
    asError v = none ↔ ∀ err, v ≠ Value.error err := by
  cases v <;> simp [asError]

/-! ## Strings -/

theorem lastIndexAux_not_mem (c : Char) (s : List Char) (i : Nat) (h : c ∉ s) :
    lastIndexAux [c] s i = -1 := by
  induction s generalizing i with
  | nil => simp [lastIndexAux]
  | cons x xs ih =>
    have hx : c ≠ x := fun e => h (e ▸ List.mem_cons_self _ _)
    have hxs : c ∉ xs := fun m => h (List.mem_cons_of_mem _ m)
    simp [lastIndexAux, ih (i + 1) hxs, List.isPrefixOf, hx]

theorem lastIndexAux_cons (substr : List Char) (c : Char) (cs : List Char) (i : Nat) :
    lastIndexAux substr (c :: cs) i =
      if lastIndexAux substr cs (i + 1) ≥ 0 then lastIndexAux substr cs (i + 1)
      else if substr.isPrefixOf (c :: cs) then (i : Int) else -1 := rfl

theorem indexAux_cons (substr : List Char) (c : Char) (cs : List Char) (i : Nat) :
    indexAux substr (c :: cs) i =
      if substr.isPrefixOf (c :: cs) then (i : Int) else indexAux substr cs (i + 1) := rfl

theorem lastIndexAux_last (c : Char) (a b : List Char) (i : Nat) (h : c ∉ b) :
    lastIndexAux [c] (a ++ c :: b) i = ((i + a.length : Nat) : Int) := by
  induction a generalizing i with
  | nil =>
    simp [lastIndexAux_cons, lastIndexAux_not_mem c b (i + 1) h, List.isPrefixOf]
  | cons x xs ih =>
    have hnn : (0 : Int) ≤ ((i + 1 + xs.length : Nat) : Int) := Int.ofNat_nonneg _
    rw [List.cons_append, lastIndexAux_cons, ih (i + 1), if_pos hnn, List.length_cons]
    congr 1
    omega

theorem indexAux_not_mem (c : Char) (s : List Char) (i : Nat) (h : c ∉ s) :
    indexAux [c] s i = -1 := by
  induction s generalizing i with
  | nil => simp [indexAux]
  | cons x xs ih =>
    have hx : c ≠ x := fun e => h (e ▸ List.mem_cons_self _ _)
    have hxs : c ∉ xs := fun m => h (List.mem_cons_of_mem _ m)
    simp [indexAux, ih (i + 1) hxs, List.isPrefixOf, hx]

theorem indexAux_first (c : Char) (a b : List Char) (i : Nat) (h : c ∉ a) :
    indexAux [c] (a ++ c :: b) i = ((i + a.length : Nat) : Int) := by
  induction a generalizing i with
  | nil => simp [indexAux_cons, List.isPrefixOf]
  | cons x xs ih =>
    have hx : c ≠ x := fun e => h (e ▸ List.mem_cons_self _ _)
    have hxs : c ∉ xs := fun m => h (List.mem_cons_of_mem _ m)
    have hpre : List.isPrefixOf [c] (x :: (xs ++ c :: b)) = false := by
      simp [List.isPrefixOf, hx]
    rw [List.cons_append, indexAux_cons, hpre, ih (i + 1) hxs, List.length_cons]
    simp only [Bool.false_eq_true, if_false]
    congr 1
    omega

theorem replaceAux_single (c d : Char) (s : List Char) :
    replaceAux [c] [d] 0 s = s.map (fun x => if x = c then d else x) := by
  induction s with
  | nil => simp [replaceAux]
  | cons x xs ih =>
    by_cases hx : c = x
    · subst hx
      simp [replaceAux, List.isPrefixOf, ih]
    · have hx2 : ¬ x = c := fun e => hx e.symm
      simp [replaceAux, List.isPrefixOf, ih, hx, hx2]

theorem exists_last_occurrence (c : Char) (s : List Char) (h : c ∈ s) :
    ∃ a b, s = a ++ c :: b ∧ c ∉ b := by
  have hr : c ∈ s.reverse := List.mem_reverse.mpr h
  obtain ⟨as, bs, hs, hnot⟩ := List.eq_append_cons_of_mem hr
  refine ⟨bs.reverse, as.reverse, ?_, by simpa using hnot⟩
  have := congrArg List.reverse hs
  simpa using this

theorem takeWhile_ne_stop (c : Char) (a b : List Char) (h : c ∉ a) :
    (a ++ c :: b).takeWhile (fun x => x != c) = a := by
  induction a with
  | nil => simp [List.takeWhile]
  | cons x xs ih =>
    have hx : x ≠ c := fun e => h (e ▸ List.mem_cons_self _ _)
    have hxs : c ∉ xs := fun m => h (List.mem_cons_of_mem _ m)
    have hx2 : (x != c) = true := by simpa using hx
    simp [List.takeWhile_cons, hx2, ih hxs]

theorem dropWhile_ne_stop (c : Char) (a b : List Char) (h : c ∉ a) :
    (a ++ c :: b).dropWhile (fun x => x != c) = c :: b := by
  induction a with
  | nil => simp [List.dropWhile]
  | cons x xs ih =>
    have hx : x ≠ c := fun e => h (e ▸ List.mem_cons_self _ _)
    have hxs : c ∉ xs := fun m => h (List.mem_cons_of_mem _ m)
    have hx2 : (x != c) = true := by simpa using hx
    simp [List.dropWhile_cons, hx2, ih hxs]

theorem takeWhile_ne_of_not_mem (c : Char) (s : List Char) (h : c ∉ s) :
    s.takeWhile (fun x => x != c) = s := by
  rw [List.takeWhile_eq_self_iff]
  intro x hx
  simp only [bne_iff_ne, ne_eq]
  intro e
  exact h (e ▸ hx)

theorem dropWhile_ne_of_not_mem (c : Char) (s : List Char) (h : c ∉ s) :
    s.dropWhile (fun x => x != c) = [] := by
  rw [List.dropWhile_eq_nil_iff]
  intro x hx
  simp only [bne_iff_ne, ne_eq]
  intro e
  exact h (e ▸ hx)

theorem specDir_of_last (a b : List Char) (h : '/' ∉ b) :
    specDir ⟨a ++ '/' :: b⟩ = ⟨a ++ ['/']⟩ := by
  have hb : '/' ∉ b.reverse := by simpa using h
  simp only [specDir, List.reverse_append, List.reverse_cons, List.append_assoc,
    List.singleton_append]
  rw [dropWhile_ne_stop '/' b.reverse a.reverse hb]
  simp

theorem specRest_of_last (a b : List Char) (h : '/' ∉ b) :
    specRest ⟨a ++ '/' :: b⟩ = ⟨b⟩ := by
  have hb : '/' ∉ b.reverse := by simpa using h
  simp only [specRest, List.reverse_append, List.reverse_cons, List.append_assoc,
    List.singleton_append]
  rw [takeWhile_ne_stop '/' b.reverse a.reverse hb]
  simp

theorem specDir_of_not_mem (n : String) (h : '/' ∉ n.data) : specDir n = "" := by
  have hb : '/' ∉ n.data.reverse := by simpa using h
  simp only [specDir]
  rw [dropWhile_ne_of_not_mem '/' _ hb]
  rfl

theorem specRest_of_not_mem (n : String) (h : '/' ∉ n.data) : specRest n = n := by
  have hb : '/' ∉ n.data.reverse := by simpa using h
  simp only [specRest]
  rw [takeWhile_ne_of_not_mem '/' _ hb]
  simp

theorem splitAtLastSlash_eq (n : String) :
    splitAtLastSlash "" n = (specDir n, specRest n) := by
  by_cases h : '/' ∈ n.data
  · obtain ⟨a, b, hs, hb⟩ := exists_last_occurrence '/' n.data h
    have hn : n = ⟨a ++ '/' :: b⟩ := String.ext hs
    subst hn
    have hidx : stringsLastIndex ⟨a ++ '/' :: b⟩ "/" = ((a.length : Nat) : Int) := by
      have := lastIndexAux_last '/' a b 0 hb
      simpa [stringsLastIndex] using this
    have hnn : (0 : Int) ≤ ((a.length : Nat) : Int) := Int.ofNat_nonneg _
    rw [specDir_of_last a b hb, specRest_of_last a b hb]
    simp only [splitAtLastSlash, hidx, ge_iff_le, hnn, if_true, sliceTo, sliceFrom,
      Int.toNat_ofNat, Int.toNat_ofNat_add_one]
    refine Prod.ext (String.ext ?_) (String.ext ?_)
    · simp [String.data_append]
    · simp
  · have hidx : stringsLastIndex n "/" = -1 := by
      have := lastIndexAux_not_mem '/' n.data 0 h
      simpa [stringsLastIndex] using this
    rw [specDir_of_not_mem n h, specRest_of_not_mem n h]
    simp [splitAtLastSlash, hidx]

theorem splitAtPeriod_eq (pkg r : String) :
    splitAtPeriod pkg r =
      if '.' ∈ r.data then
        (pkg ++ ⟨r.data.takeWhile (fun c => c != '.')⟩,
          ⟨(r.data.dropWhile (fun c => c != '.')).drop 1⟩)
      else (pkg, r) := by
  by_cases h : '.' ∈ r.data
  · obtain ⟨a, b, hs, ha⟩ := List.eq_append_cons_of_mem h
    have hr : r = ⟨a ++ '.' :: b⟩ := String.ext hs
    subst hr
    have hidx : stringsIndex ⟨a ++ '.' :: b⟩ "." = ((a.length : Nat) : Int) := by
      have := indexAux_first '.' a b 0 ha
      simpa [stringsIndex] using this
    have hnn : (0 : Int) ≤ ((a.length : Nat) : Int) := Int.ofNat_nonneg _
    simp only [splitAtPeriod, hidx, ge_iff_le, hnn, if_true, sliceTo, sliceFrom,
      Int.toNat_ofNat, Int.toNat_ofNat_add_one, h,
      takeWhile_ne_stop '.' a b ha, dropWhile_ne_stop '.' a b ha]
    refine Prod.ext (String.ext ?_) (String.ext ?_)
    · simp [String.data_append]
    · simp
  · have hidx : stringsIndex r "." = -1 := by
      have := indexAux_not_mem '.' r.data 0 h
      simpa [stringsIndex] using this
    simp [splitAtPeriod, hidx, h]

theorem stringsReplaceAll_centerDot (s : String) :
    stringsReplaceAll s "·" "." = specCenterDots s := by
  have h := replaceAux_single '·' '.' s.data
  have hold : ("·" : String).data = ['·'] := rfl
  have hnew : ("." : String).data = ['.'] := rfl
  simp only [stringsReplaceAll, hold, hnew, specCenterDots]
  simp [h]

theorem newStackFrame_of_func (rt : Runtime) (pc : Nat) (f : Func)
    (hf : rt.FuncForPC pc = some f) :
    newStackFrame rt pc =
      { File := (f.FileLine (pcMinusOne pc)).1,
        Line := (f.FileLine (pcMinusOne pc)).2,
        Function := specFunction f.Name,
        Package := specPackage f.Name } := by
  simp only [newStackFrame, hf, splitAtLastSlash_eq, splitAtPeriod_eq,
    stringsReplaceAll_centerDot, specFunction, specPackage]
  by_cases h : '.' ∈ (specRest f.Name).data <;> simp [h]

/-! ## Fire: the failing branches -/

/-- C1: for every hook whose Key is the empty string and every log record,
whatever its fields hold, Fire returns an error whose message is exactly
"The key of the hook must be set to a non empty string." and the record is
left exactly as it was. -/
theorem Fire_empty_key (rt : Runtime) (hook : LogtraceHook) (entry : Entry)
    (hkey : hook.Key = "") :
    (Fire rt hook entry).1 = some "The key of the hook must be set to a non empty string." ∧
    (Fire rt hook entry).2 = entry ∧
    ∀ k, (Fire rt hook entry).2.Data k = entry.Data k := by
  simp [Fire, hkey, keyErrorMessage]

/-- The hook without key of the tests, fired on a record that holds a merry
error. -/
theorem Fire_empty_key_witness :
    brokenTestHook.Key = "" ∧
    ((Fire sampleRuntime brokenTestHook (entryWithError (.error merryError))).1
        = some "The key of the hook must be set to a non empty string." ∧
      (Fire sampleRuntime brokenTestHook (entryWithError (.error merryError))).2
        = entryWithError (.error merryError) ∧
      ∀ k, (Fire sampleRuntime brokenTestHook (entryWithError (.error merryError))).2.Data k
        = (entryWithError (.error merryError)).Data k) :=
  ⟨rfl, Fire_empty_key sampleRuntime brokenTestHook (entryWithError (.error merryError)) rfl⟩

/-- C2: for every hook with a non-empty Key and every record whose reserved
"error" field holds a value that is not an error, Fire fails with the error
whose message is "The value in the error field of the given logrus entry is
not an error!", and every field of the record is unchanged; in particular the
configured key is not added. -/
theorem Fire_non_error_value (rt : Runtime) (hook : LogtraceHook) (entry : Entry) (v : Value)
    (hkey : hook.Key ≠ "") (hv : entry.Data ErrorKey = some v)
    (hne : ∀ err, v ≠ Value.error err) :
    (Fire rt hook entry).1
      = some "The value in the error field of the given logrus entry is not an error!" ∧
    (Fire rt hook entry).2 = entry ∧
    (∀ k, (Fire rt hook entry).2.Data k = entry.Data k) ∧
    (Fire rt hook entry).2.Data hook.Key = entry.Data hook.Key := by
  have has : asError v = none := (asError_eq_none_iff v).mpr hne
  simp [Fire, hkey, hv, has, typeErrorMessage]

/-- The test `TestErrorTracebackHookNonErrorError`: the error field holds the
string "foo". -/
theorem Fire_non_error_value_witness :
    (testHook false).Key ≠ "" ∧
    (entryWithError (.string "foo")).Data ErrorKey = some (.string "foo") ∧
    (∀ err, Value.string "foo" ≠ Value.error err) ∧
    ((Fire sampleRuntime (testHook false) (entryWithError (.string "foo"))).1
        = some "The value in the error field of the given logrus entry is not an error!" ∧
      (Fire sampleRuntime (testHook false) (entryWithError (.string "foo"))).2
        = entryWithError (.string "foo") ∧
      (∀ k, (Fire sampleRuntime (testHook false) (entryWithError (.string "foo"))).2.Data k
        = (entryWithError (.string "foo")).Data k) ∧
      (Fire sampleRuntime (testHook false) (entryWithError (.string "foo"))).2.Data
          (testHook false).Key
        = (entryWithError (.string "foo")).Data (testHook false).Key) :=
  ⟨by decide, rfl, fun _ h => Value.noConfusion h,
    Fire_non_error_value sampleRuntime (testHook false) (entryWithError (.string "foo"))
      (.string "foo") (by decide) rfl (fun _ h => Value.noConfusion h)⟩

/-- C10: for every hook with a non-empty Key and every record in which the
reserved "error" field is present but holds the nil value, Fire does not
treat the record as carrying no error: it fails with the error "The value in
the error field of the given logrus entry is not an error!" and leaves the
record unchanged. -/
theorem Fire_nil_error_value (rt : Runtime) (hook : LogtraceHook) (entry : Entry)
    (hkey : hook.Key ≠ "") (hv : entry.Data ErrorKey = some Value.nil) :
    (Fire rt hook entry).1
      = some "The value in the error field of the given logrus entry is not an error!" ∧
    (Fire rt hook entry).2 = entry := by
  simp [Fire, hkey, hv, asError, typeErrorMessage]

/-- The record `logger.WithError(nil)` fired through the hook of the tests. -/
theorem Fire_nil_error_value_witness :
    (testHook true).Key ≠ "" ∧
    (entryWithError Value.nil).Data ErrorKey = some Value.nil ∧
    ((Fire sampleRuntime (testHook true) (entryWithError Value.nil)).1
        = some "The value in the error field of the given logrus entry is not an error!" ∧
      (Fire sampleRuntime (testHook true) (entryWithError Value.nil)).2
        = entryWithError Value.nil) :=
  ⟨by decide, rfl,
    Fire_nil_error_value sampleRuntime (testHook true) (entryWithError Value.nil)
      (by decide) rfl⟩

/-- C8: Fire returns an error if and only if the configured Key is empty, or
the record has a value under the reserved "error" field that is not an
error-typed value; in every other case it reports success, and when the
record carries no value under the "error" field and the Key is non-empty,
Fire is a no-op that leaves the record unchanged. -/
theorem Fire_error_iff (rt : Runtime) (hook : LogtraceHook) (entry : Entry) :
    ((Fire rt hook entry).1 ≠ none ↔
      (hook.Key = "" ∨ ∃ v, entry.Data ErrorKey = some v ∧ ∀ err, v ≠ Value.error err)) ∧
    ((Fire rt hook entry).1 = none ↔
      ¬ (hook.Key = "" ∨ ∃ v, entry.Data ErrorKey = some v ∧ ∀ err, v ≠ Value.error err)) ∧
    (hook.Key ≠ "" → entry.Data ErrorKey = none → Fire rt hook entry = (none, entry)) := by
  have main : (Fire rt hook entry).1 ≠ none ↔
      (hook.Key = "" ∨ ∃ v, entry.Data ErrorKey = some v ∧ ∀ err, v ≠ Value.error err) := by
    by_cases hkey : hook.Key = ""
    · simp [Fire, hkey]
    · cases hv : entry.Data ErrorKey with
      | none => simp [Fire, hkey, hv]
      | some v =>
        cases has : asError v with
        | none =>
          have hne := (asError_eq_none_iff v).mp has
          simp only [Fire, hkey, hv, has, if_false]
          simp only [ne_eq, false_or, Option.some.injEq, exists_eq_left']
          constructor
          · intro _; exact hne
          · intro _; simp
        | some err =>
          have hverr : v = Value.error err := by
            cases v <;> simp [asError] at has
            rw [has]
          simp only [Fire, hkey, hv, has, if_false]
          constructor
          · intro h
            exfalso
            revert h
            split <;> simp
          · intro h
            rcases h with h | ⟨w, hw, hwne⟩
            · exact absurd h (by simp)
            · exfalso
              simp only [Option.some.injEq] at hw
              exact hwne err (by rw [← hw, hverr])
  refine ⟨main, ?_, ?_⟩
  · rw [← main]; simp
  · intro hkey hv
    simp [Fire, hkey, hv]

/-- A record without error field passes through a hook with a key untouched,
and Fire reports success. -/
theorem Fire_error_iff_witness :
    Fire sampleRuntime (testHook true) entryWithoutError = (none, entryWithoutError) :=
  (Fire_error_iff sampleRuntime (testHook true) entryWithoutError).2.2 (by decide) rfl

/-! ## The stack retriever -/

/-- C9: retrieveProgramCounters tries the strategies in strict priority
order.  If merry.Stack yields an address list, that list is the result,
whatever the Callers() accessors and the capture flag are.  Otherwise, if
the error or an error of its unwrap chain has Callers(), the result is the
Callers() list of the first such error, whatever the capture flag is.
Otherwise, if CaptureStackIfMissing is set, the result is the address list of
a freshly captured trace.  Otherwise the result is nil. -/
theorem retrieveProgramCounters_priority (rt : Runtime) (hook : LogtraceHook)
    (err : GoError) :
    (∀ stack, merryStack err = some stack →
      retrieveProgramCounters rt hook err = some stack) ∧
    (∀ (pre post : List ErrorInfo) (i : ErrorInfo) (callers : PCs),
      merryStack err = none → unwrapChain err = pre ++ i :: post →
      (∀ j ∈ pre, j.Callers = none) → i.Callers = some callers →
      retrieveProgramCounters rt hook err = callers) ∧
    (merryStack err = none → (∀ i ∈ unwrapChain err, i.Callers = none) →
      hook.CaptureStackIfMissing = true →
      retrieveProgramCounters rt hook err = rt.captureStack err) ∧
    (merryStack err = none → (∀ i ∈ unwrapChain err, i.Callers = none) →
      hook.CaptureStackIfMissing = false →
      retrieveProgramCounters rt hook err = none) := by
  refine ⟨?_, ?_, ?_, ?_⟩
  · intro stack h
    simp [retrieveProgramCounters, h]
  · intro pre post i callers hm hchain hpre hi
    have has := errorsAsCallers_first err pre post i callers hchain hpre hi
    simp [retrieveProgramCounters, hm, has]
  · intro hm hnone hflag
    have has := (errorsAsCallers_eq_none_iff err).mpr hnone
    simp [retrieveProgramCounters, hm, has, hflag]
  · intro hm hnone hflag
    have has := (errorsAsCallers_eq_none_iff err).mpr hnone
    simp [retrieveProgramCounters, hm, has, hflag]

/-- The four strategies on the errors of the tests: a merry error, a wrapped
go-errors error, and a plain error with and without capture. -/
theorem retrieveProgramCounters_priority_witness :
    retrieveProgramCounters sampleRuntime (testHook true) merryError = some [4096, 8192] ∧
    retrieveProgramCounters sampleRuntime (testHook true) wrappedGoErrorsError
      = some [4096, 5, 8192] ∧
    retrieveProgramCounters sampleRuntime (testHook true) plainError = some [8192] ∧
    retrieveProgramCounters sampleRuntime (testHook false) plainError = none :=
  ⟨(retrieveProgramCounters_priority sampleRuntime (testHook true) merryError).1 _ rfl,
    by decide, by decide, by decide⟩

/-- C7: for every non-empty address list obtained for an error,
retrieveStackFrames returns a sequence of the same length whose i-th element
is newStackFrame of the i-th address, in the same order; an address that no
function owns yields the all-empty StackFrame at its position, and the frames
of the other addresses are what they are without it.  When no addresses are
found (nil or empty list) the result is the empty sequence. -/
theorem retrieveStackFrames_spec (rt : Runtime) (hook : LogtraceHook) (err : GoError) :
    (∀ pcs, retrieveProgramCounters rt hook err = some pcs → pcs ≠ [] →
      (retrieveStackFrames rt hook err).length = pcs.length ∧
      retrieveStackFrames rt hook err = pcs.map (newStackFrame rt) ∧
      (∀ i (hi : i < pcs.length),
        (retrieveStackFrames rt hook err)[i]? = some (newStackFrame rt pcs[i])) ∧
      (∀ i (hi : i < pcs.length), rt.FuncForPC pcs[i] = none →
        (retrieveStackFrames rt hook err)[i]?
          = some { File := "", Line := 0, Function := "", Package := "" })) ∧
    (retrieveProgramCounters rt hook err = none → retrieveStackFrames rt hook err = []) ∧
    (retrieveProgramCounters rt hook err = some [] → retrieveStackFrames rt hook err = []) := by
  refine ⟨?_, retrieveStackFrames_of_none rt hook err, ?_⟩
  · intro pcs hpcs _
    have hmap := retrieveStackFrames_of_some rt hook err pcs hpcs
    have hget : ∀ i (hi : i < pcs.length),
        (retrieveStackFrames rt hook err)[i]? = some (newStackFrame rt pcs[i]) := by
      intro i hi
      rw [hmap]
      simp [List.getElem?_eq_getElem, hi]
    refine ⟨by rw [hmap]; simp, hmap, hget, ?_⟩
    intro i hi hnone
    rw [hget i hi]
    simp [newStackFrame, hnone, StackFrame.zero]
  · intro h
    rw [retrieveStackFrames_of_some rt hook err [] h]
    rfl

/-- The go-errors error of the tests: three addresses, the second owned by no
function; the frames around it are resolved as usual. -/
theorem retrieveStackFrames_spec_witness :
    retrieveStackFrames sampleRuntime (testHook false) goErrorsError
      = [ { File := "/usr/lib/go/src/runtime/debug/stack.go", Line := 95,
            Function := "*T.ptrmethod", Package := "runtime/debug" },
          { File := "", Line := 0, Function := "", Package := "" },
          { File := "/app/main.go", Line := 191, Function := "main", Package := "main" } ] :=
  ((retrieveStackFrames_spec sampleRuntime (testHook false) goErrorsError).1
    [4096, 5, 8192] rfl (by decide)).2.1.trans (by decide)

/-- C4: for every hook with a non-empty Key and CaptureStackIfMissing =
false, and every record whose error field holds an error exposing neither a
merry stack nor a Callers() accessor in its unwrap chain, the retrieved frame
sequence is empty, Fire returns no error, and the record is left unmodified:
it keeps exactly its original fields and does not gain the configured key. -/
theorem Fire_no_stack_no_capture (rt : Runtime) (hook : LogtraceHook) (entry : Entry)
    (err : GoError) (hkey : hook.Key ≠ "") (hflag : hook.CaptureStackIfMissing = false)
    (hv : entry.Data ErrorKey = some (Value.error err))
    (hA : merryStack err = none)
    (hB : ∀ i ∈ unwrapChain err, i.Callers = none) :
    retrieveStackFrames rt hook err = [] ∧
    (Fire rt hook entry).1 = none ∧
    (Fire rt hook entry).2 = entry ∧
    (∀ k, (Fire rt hook entry).2.Data k = entry.Data k) ∧
    (Fire rt hook entry).2.Data hook.Key = entry.Data hook.Key := by
  have has := (errorsAsCallers_eq_none_iff err).mpr hB
  have hpcs : retrieveProgramCounters rt hook err = none := by
    simp [retrieveProgramCounters, hA, has, hflag]
  have hframes := retrieveStackFrames_of_none rt hook err hpcs
  simp [Fire, hkey, hv, asError, hframes]

/-- The test case "builtin error without CaptureStacktraceIfMissing": the
record keeps its fields and has no field "test_stacktrace". -/
theorem Fire_no_stack_no_capture_witness :
    retrieveStackFrames sampleRuntime (testHook false) plainError = [] ∧
    (Fire sampleRuntime (testHook false) (entryWithError (.error plainError))).1 = none ∧
    (Fire sampleRuntime (testHook false) (entryWithError (.error plainError))).2
      = entryWithError (.error plainError) ∧
    (Fire sampleRuntime (testHook false) (entryWithError (.error plainError))).2.Data
      "test_stacktrace" = none :=
  have h := Fire_no_stack_no_capture sampleRuntime (testHook false)
    (entryWithError (.error plainError)) plainError (by decide) rfl rfl rfl (by decide)
  ⟨h.1, h.2.1, h.2.2.1, h.2.2.2.2.trans (by decide)⟩

/-! ## Fire: attaching the frames -/

theorem Fire_of_error (rt : Runtime) (hook : LogtraceHook) (entry : Entry) (err : GoError)
    (hkey : hook.Key ≠ "") (hv : entry.Data ErrorKey = some (Value.error err)) :
    Fire rt hook entry =
      if (retrieveStackFrames rt hook err).length > 0 then
        (none, { entry with
          Data := fun k =>
            if k = hook.Key then some (Value.frames (retrieveStackFrames rt hook err))
            else entry.Data k })
      else (none, entry) := by
  simp [Fire, hkey, hv, asError, WithField]

theorem Fire_data_cases (rt : Runtime) (hook : LogtraceHook) (entry : Entry) :
    (Fire rt hook entry).2 = entry ∨
    ∃ err, hook.Key ≠ "" ∧ entry.Data ErrorKey = some (Value.error err) ∧
      retrieveStackFrames rt hook err ≠ [] ∧
      (Fire rt hook entry).2 = { entry with
        Data := fun k =>
          if k = hook.Key then some (Value.frames (retrieveStackFrames rt hook err))
          else entry.Data k } := by
  by_cases hkey : hook.Key = ""
  · left; simp [Fire, hkey]
  · cases hv : entry.Data ErrorKey with
    | none => left; simp [Fire, hkey, hv]
    | some v =>
      cases v with
      | error err =>
        rw [Fire_of_error rt hook entry err hkey hv]
        by_cases hlen : (retrieveStackFrames rt hook err).length > 0
        · right
          refine ⟨err, hkey, rfl, ?_, ?_⟩
          · intro h; rw [h] at hlen; simp at hlen
          · simp [hlen]
        · left; simp [hlen]
      | nil => left; simp [Fire, hkey, hv, asError]
      | string s => left; simp [Fire, hkey, hv, asError]
      | int n => left; simp [Fire, hkey, hv, asError]
      | frames fs => left; simp [Fire, hkey, hv, asError]

/-- C3 as stated fails: an error whose merry stack is an empty slice that is
not nil, wrapped around an error whose Callers() gives three addresses,
exposes a Callers() accessor with a non-empty address list; Fire returns no
error and the record holds nothing under the configured key. -/
theorem Fire_attaches_frames_counterexample :
    (testHook false).Key ≠ "" ∧
    (entryWithError (.error shadowedError)).Data ErrorKey = some (.error shadowedError) ∧
    errorsAsCallers shadowedError = some (some [4096, 5, 8192]) ∧
    [4096, 5, 8192] ≠ ([] : List Nat) ∧
    (Fire sampleRuntime (testHook false) (entryWithError (.error shadowedError))).1 = none ∧
    (Fire sampleRuntime (testHook false) (entryWithError (.error shadowedError))).2.Data
      (testHook false).Key = none := by
  decide

/-- C3, amended: for every hook with a non-empty Key, whatever its
CaptureStackIfMissing flag, and every record whose error field holds an error
for which merry.Stack yields a non-empty address list, or for which
merry.Stack yields nil and the Callers() accessor reached through the unwrap
chain yields a non-empty address list, Fire returns no error and the record
afterwards holds, under the configured key, a non-empty sequence of
StackFrame whose length equals the length of that address list. -/
theorem Fire_attaches_frames (rt : Runtime) (hook : LogtraceHook) (entry : Entry)
    (err : GoError) (addrs : List Nat)
    (hkey : hook.Key ≠ "") (hv : entry.Data ErrorKey = some (Value.error err))
    (hcap : merryStack err = some addrs ∨
      (merryStack err = none ∧ errorsAsCallers err = some (some addrs)))
    (hne : addrs ≠ []) :
    (Fire rt hook entry).1 = none ∧
    ∃ frames, (Fire rt hook entry).2.Data hook.Key = some (Value.frames frames) ∧
      frames ≠ [] ∧ frames.length = addrs.length ∧
      frames = addrs.map (newStackFrame rt) := by
  have hpcs : retrieveProgramCounters rt hook err = some addrs := by
    rcases hcap with hA | ⟨hA, hB⟩
    · simp [retrieveProgramCounters, hA]
    · simp [retrieveProgramCounters, hA, hB]
  have hframes := retrieveStackFrames_of_some rt hook err addrs hpcs
  have hlen : (retrieveStackFrames rt hook err).length > 0 := by
    rw [hframes, List.length_map]
    exact List.length_pos.mpr hne
  rw [Fire_of_error rt hook entry err hkey hv]
  simp only [hlen, if_true, true_and]
  refine ⟨addrs.map (newStackFrame rt), by simp [hframes], ?_, by simp, rfl⟩
  intro h
  exact hne (List.map_eq_nil_iff.mp h)

/-- The test cases "merry error" and "goerror error" with capture disabled. -/
theorem Fire_attaches_frames_witness :
    ((Fire sampleRuntime (testHook false) (entryWithError (.error merryError))).1 = none ∧
      ∃ frames,
        (Fire sampleRuntime (testHook false) (entryWithError (.error merryError))).2.Data
          (testHook false).Key = some (Value.frames frames) ∧
        frames ≠ [] ∧ frames.length = [4096, 8192].length ∧
        frames = [4096, 8192].map (newStackFrame sampleRuntime)) ∧
    ((Fire sampleRuntime (testHook false) (entryWithError (.error wrappedGoErrorsError))).1
        = none ∧
      ∃ frames,
        (Fire sampleRuntime (testHook false)
          (entryWithError (.error wrappedGoErrorsError))).2.Data
          (testHook false).Key = some (Value.frames frames) ∧
        frames ≠ [] ∧ frames.length = [4096, 5, 8192].length ∧
        frames = [4096, 5, 8192].map (newStackFrame sampleRuntime)) :=
  ⟨Fire_attaches_frames sampleRuntime (testHook false) (entryWithError (.error merryError))
      merryError [4096, 8192] (by decide) rfl (Or.inl rfl) (by decide),
    Fire_attaches_frames sampleRuntime (testHook false)
      (entryWithError (.error wrappedGoErrorsError))
      wrappedGoErrorsError [4096, 5, 8192] (by decide) rfl (Or.inr ⟨rfl, rfl⟩) (by decide)⟩

/-- C5 as stated fails: with the hook key "error", Fire on a record holding a
merry error puts the frame sequence under "error", so the error field no
longer holds the original error. -/
theorem Fire_frame_effect_counterexample :
    (entryWithError (.error merryError)).Data ErrorKey = some (.error merryError) ∧
    (Fire sampleRuntime errorKeyHook (entryWithError (.error merryError))).1 = none ∧
    (Fire sampleRuntime errorKeyHook (entryWithError (.error merryError))).2.Data ErrorKey
      = some (.frames
          [ { File := "/usr/lib/go/src/runtime/debug/stack.go", Line := 95,
              Function := "*T.ptrmethod", Package := "runtime/debug" },
            { File := "/app/main.go", Line := 191, Function := "main", Package := "main" } ]) ∧
    (Fire sampleRuntime errorKeyHook (entryWithError (.error merryError))).2.Data ErrorKey
      ≠ (entryWithError (.error merryError)).Data ErrorKey := by
  decide

/-- C5, amended: Fire mutates a record only by setting the one field under
the configured Key.  For every hook, every record and every field name other
than the configured Key, the field is present after Fire exactly when it was
present before and holds the same value; in particular, when the configured
Key is not "error", the error field still holds the original error.  When the
retrieved frame sequence is non-empty the record after Fire is the original
data with the configured Key mapped to that frame sequence.  Nothing but the
data of the record changes. -/
theorem Fire_frame_effect (rt : Runtime) (hook : LogtraceHook) (entry : Entry) :
    (∀ k, k ≠ hook.Key → (Fire rt hook entry).2.Data k = entry.Data k) ∧
    (hook.Key ≠ "error" → (Fire rt hook entry).2.Data "error" = entry.Data "error") ∧
    (∀ err, hook.Key ≠ "" → entry.Data ErrorKey = some (Value.error err) →
      retrieveStackFrames rt hook err ≠ [] →
      (Fire rt hook entry).2.Data =
        fun k =>
          if k = hook.Key then some (Value.frames (retrieveStackFrames rt hook err))
          else entry.Data k) ∧
    ((Fire rt hook entry).2.Level = entry.Level ∧
      (Fire rt hook entry).2.Message = entry.Message) := by
  have hother : ∀ k, k ≠ hook.Key → (Fire rt hook entry).2.Data k = entry.Data k := by
    intro k hk
    rcases Fire_data_cases rt hook entry with h | ⟨err, _, _, _, h⟩
    · rw [h]
    · rw [h]; simp [hk]
  refine ⟨hother, fun h => hother "error" (Ne.symm h), ?_, ?_⟩
  · intro err hkey hv hne
    have hlen : (retrieveStackFrames rt hook err).length > 0 := List.length_pos.mpr hne
    rw [Fire_of_error rt hook entry err hkey hv]
    simp [hlen]
  · rcases Fire_data_cases rt hook entry with h | ⟨err, _, _, _, h⟩ <;> rw [h] <;> simp

/-- The test case "merry error": the fields "error" and "request" are kept
and the frames are stored under "test_stacktrace". -/
theorem Fire_frame_effect_witness :
    (Fire sampleRuntime (testHook false) (entryWithError (.error merryError))).2.Data "error"
      = some (.error merryError) ∧
    (Fire sampleRuntime (testHook false) (entryWithError (.error merryError))).2.Data "request"
      = some (.int 7) ∧
    (Fire sampleRuntime (testHook false) (entryWithError (.error merryError))).2.Data
      "test_stacktrace"
      = some (.frames
          [ { File := "/usr/lib/go/src/runtime/debug/stack.go", Line := 95,
              Function := "*T.ptrmethod", Package := "runtime/debug" },
            { File := "/app/main.go", Line := 191, Function := "main", Package := "main" } ]) :=
  ⟨((Fire_frame_effect sampleRuntime (testHook false)
      (entryWithError (.error merryError))).2.1 (by decide)).trans (by decide),
    by decide, by decide⟩

/-! ## The symbol resolver -/

theorem specSplit_of_parts (n : String) (d r : List Char) (hn : n.data = d ++ r)
    (hr : '/' ∉ r) (hd : d = [] ∨ ∃ d0, d = d0 ++ ['/']) :
    specDir n = ⟨d⟩ ∧ specRest n = ⟨r⟩ := by
  rcases hd with hd | ⟨d0, hd⟩
  · subst hd
    have hnr : n = ⟨r⟩ := String.ext (by simpa using hn)
    subst hnr
    exact ⟨specDir_of_not_mem _ hr, specRest_of_not_mem _ hr⟩
  · subst hd
    have hnr : n = ⟨d0 ++ '/' :: r⟩ := String.ext (by simpa using hn)
    subst hnr
    exact ⟨specDir_of_last d0 r hr, specRest_of_last d0 r hr⟩

/-- C6: for every address owned by a function whose raw qualified symbol name
is n, newStackFrame splits n as follows.  Let d be the part of n up to and
including its last '/' (empty if n has no '/') and r the remainder.  If r
contains a '.', Package is d followed by the part of r before its first '.',
and Function is the part of r after that first '.' with every '·' replaced by
'.'; if r contains no '.', Package is d and Function is r with the same
replacement.  Dots inside d never affect the split: d is arbitrary below.
File and Line are those of the address before the given one. -/
theorem newStackFrame_split (rt : Runtime) (pc : Nat) (f : Func)
    (hf : rt.FuncForPC pc = some f) :
    (newStackFrame rt pc).Package = specPackage f.Name ∧
    (newStackFrame rt pc).Function = specFunction f.Name ∧
    (newStackFrame rt pc).File = (f.FileLine (pcMinusOne pc)).1 ∧
    (newStackFrame rt pc).Line = (f.FileLine (pcMinusOne pc)).2 ∧
    ∀ d r : List Char, f.Name.data = d ++ r → '/' ∉ r → (d = [] ∨ ∃ d0, d = d0 ++ ['/']) →
      (∀ before after : List Char, r = before ++ '.' :: after → '.' ∉ before →
        (newStackFrame rt pc).Package = ⟨d ++ before⟩ ∧
        (newStackFrame rt pc).Function
          = ⟨after.map (fun c => if c = '·' then '.' else c)⟩) ∧
      ('.' ∉ r →
        (newStackFrame rt pc).Package = ⟨d⟩ ∧
        (newStackFrame rt pc).Function = ⟨r.map (fun c => if c = '·' then '.' else c)⟩) := by
  have hframe := newStackFrame_of_func rt pc f hf
  refine ⟨by rw [hframe], by rw [hframe], by rw [hframe], by rw [hframe], ?_⟩
  intro d r hn hr hd
  obtain ⟨hdir, hrest⟩ := specSplit_of_parts f.Name d r hn hr hd
  rw [hframe]
  constructor
  · intro before after hsplit hbefore
    have hmem : '.' ∈ r := by rw [hsplit]; simp
    subst hsplit
    simp only [specPackage, specFunction, hdir, hrest, hmem, if_true,
      takeWhile_ne_stop '.' before after hbefore, dropWhile_ne_stop '.' before after hbefore,
      specCenterDots]
    exact ⟨String.ext (by simp [String.data_append]), by simp⟩
  · intro hmem
    simp [specPackage, specFunction, hdir, hrest, hmem, specCenterDots]

/-- The name "runtime/debug.*T·ptrmethod" gives Package "runtime/debug" and
Function "*T.ptrmethod". -/
theorem newStackFrame_split_witness :
    sampleRuntime.FuncForPC 4096 = some sampleFunc ∧
    sampleFunc.Name = "runtime/debug.*T·ptrmethod" ∧
    (newStackFrame sampleRuntime 4096).Package = "runtime/debug" ∧
    (newStackFrame sampleRuntime 4096).Function = "*T.ptrmethod" :=
  ⟨rfl, rfl,
    (newStackFrame_split sampleRuntime 4096 sampleFunc rfl).1.trans (by decide),
    (newStackFrame_split sampleRuntime 4096 sampleFunc rfl).2.1.trans (by decide)⟩

end Logtrace
